import Mathlib

/-!
Verification development for the shell emulator in `main.py`.

The embedding models the Python source faithfully:
  - path strings are Lean `String`s, and the `os.path` functions the source
    uses (`join`, `normpath`, `dirname`, `relpath`) together with the `str`
    methods (`strip`, `startswith`, slicing, `split`) are implemented below
    over the underlying character lists (`String.data`);
  - the real filesystem seen by the process is a finite tree `FSNode`
    rooted at the process working directory, so the extraction directory
    `./virtual_fs` is the entry named `virtual_fs` of that root;
  - Python exceptions that the source does not catch are modelled with
    `Except PyError`;
  - machine-level concerns (actual tar extraction, JSON serialisation,
    OS permissions) are outside the modelled boundary, as are locations
    above the process working directory: a resolved path that climbs above
    it simply resolves to nothing inside the model tree.
-/

/-! ## Character-list utilities shared by the path functions -/

/-- Split a character list on the separator character `/`, exactly like
Python's `str.split("/")`: the empty string yields `[""]`, and empty
fields around consecutive or leading/trailing separators are kept. -/
def splitS : List Char → List (List Char)
  | [] => [[]]
  | c :: rest =>
    if c = '/' then [] :: splitS rest
    else match splitS rest with
      | [] => [[c]]
      | g :: gs => (c :: g) :: gs

/-- Join chunks with a separator list, like `sep.join(chunks)`. -/
def joinChunks (sep : List Char) : List (List Char) → List Char
  | [] => []
  | [x] => x
  | x :: y :: rest => x ++ sep ++ joinChunks sep (y :: rest)

/-- Whitespace test used by Python's `str.strip()` and `str.split()`
(restricted to the blank characters that can occur in command lines). -/
def isSpaceB (c : Char) : Bool :=
  c = ' ' || c = '\t' || c = '\n' || c = '\r'

/-- Python `str.strip()`: drop leading and trailing whitespace. -/
def pyStrip (s : String) : String :=
  String.mk (((s.data.dropWhile isSpaceB).reverse.dropWhile isSpaceB).reverse)

/-- Worker for whitespace splitting: `cur` is the reversed current word. -/
def splitWsAux : List Char → List Char → List (List Char)
  | [], cur => if cur = [] then [] else [cur.reverse]
  | c :: rest, cur =>
    if isSpaceB c then
      if cur = [] then splitWsAux rest [] else cur.reverse :: splitWsAux rest []
    else splitWsAux rest (c :: cur)

/-- Split a character list on whitespace runs, like the no-argument
Python `str.split()` (no empty fields are produced). -/
def splitWsL (cs : List Char) : List (List Char) := splitWsAux cs []

/-- Python `command.split()`: whitespace-separated tokens of a string. -/
def splitWs (s : String) : List String := (splitWsL s.data).map String.mk

/-- Python `str.startswith(pre)`. -/
def strStartsWith (s pre : String) : Bool := List.isPrefixOf pre.data s.data

/-- Python string slicing `s[n:]` (drop the first `n` characters; the
whole string is kept when `n` is larger than its length). -/
def pyDrop (n : Nat) (s : String) : String := String.mk (s.data.drop n)

/-- Python `"".join(lines)`: concatenation without a separator. -/
def pyJoin (l : List String) : String := String.mk (l.flatMap String.data)

/-- Python `sep.join(parts)` for a string separator. -/
def pyJoinSep (sep : String) (l : List String) : String :=
  String.mk (joinChunks sep.data (l.map String.data))

/-- Decimal digits of an optionally signed integer literal; `none` when a
non-digit appears or the digit list is empty. -/
def digitsVal : List Char → Option Nat
  | [] => none
  | [c] => if c.isDigit then some (c.toNat - '0'.toNat) else none
  | c :: c2 :: rest =>
    if c.isDigit then
      match digitsVal (c2 :: rest) with
      | some v => some ((c.toNat - '0'.toNat) * 10 ^ (c2 :: rest).length + v)
      | none => none
    else none

/-- Python `int(s)` on an optionally signed decimal string (the model
does not accept surrounding whitespace or underscores, which never occur
in the commands the claims are about); `none` models `ValueError`. -/
def pyInt? (s : String) : Option Int :=
  match s.data with
  | '-' :: rest => (digitsVal rest).map (fun v => -(v : Int))
  | '+' :: rest => (digitsVal rest).map (fun v => (v : Int))
  | cs => (digitsVal cs).map (fun v => (v : Int))

/-- Code-point comparison of characters, as Python compares strings. -/
def lexLe : List Char → List Char → Bool
  | [], _ => true
  | _ :: _, [] => false
  | a :: as, b :: bs =>
    if a.toNat < b.toNat then true
    else if b.toNat < a.toNat then false
    else lexLe as bs

/-- Python `<=` on strings: lexicographic on code points. -/
def strLeB (a b : String) : Bool := lexLe a.data b.data

/-- Insertion into a sorted list of strings. -/
def insertSorted (x : String) : List String → List String
  | [] => [x]
  | y :: ys => if strLeB x y then x :: y :: ys else y :: insertSorted x ys

/-- Python `sorted(names)` for strings. -/
def sortStrings (l : List String) : List String := l.foldr insertSorted []

/-! ## `os.path` functions (POSIX flavour, as the source runs on one) -/

/-- `os.path.join(a, b)` for two arguments, on character lists. -/
def posixJoinL (a b : List Char) : List Char :=
  if b.head? = some '/' then b
  else if a = [] ∨ a.getLast? = some '/' then a ++ b
  else a ++ '/' :: b

/-- `os.path.join(a, b)` for two arguments. -/
def posixJoin (a b : String) : String := String.mk (posixJoinL a.data b.data)

/-- Python `str.strip("/")` on character lists: drop leading and
trailing slashes. -/
def stripSlashL (l : List Char) : List Char :=
  ((l.dropWhile (fun c => c = '/')).reverse.dropWhile (fun c => c = '/')).reverse

/-- Python `str.strip("/")`: drop leading and trailing slashes. -/
def stripSlashes (s : String) : String := String.mk (stripSlashL s.data)

/-- The component loop of `posixpath.normpath`: skip empty and `.`
components, let `..` cancel a previous component, keep `..` at the front
of a relative path, and drop `..` at the root of an absolute path. -/
def normSegs (isAbs : Bool) : List (List Char) → List (List Char) → List (List Char)
  | [], acc => acc.reverse
  | c :: rest, acc =>
    if c = [] ∨ c = ['.'] then normSegs isAbs rest acc
    else if c = ['.', '.'] then
      match acc with
      | [] => if isAbs then normSegs isAbs rest [] else normSegs isAbs rest [['.', '.']]
      | top :: acc' =>
        if top = ['.', '.'] then normSegs isAbs rest (c :: top :: acc')
        else normSegs isAbs rest acc'
    else normSegs isAbs rest (c :: acc)

/-- The leading-slash count of `posixpath.normpath`: one initial slash
is preserved, exactly two are preserved as two, three or more collapse
to one. -/
def leadSlashes (p : List Char) : Nat :=
  if p.head? = some '/' then
    if (p.drop 1).head? = some '/' ∧ (p.drop 2).head? ≠ some '/' then 2 else 1
  else 0

/-- `os.path.normpath` on character lists. -/
def normpathL (p : List Char) : List Char :=
  if p = [] then ['.']
  else
    let slashes := leadSlashes p
    let comps := normSegs (slashes ≠ 0) (splitS p) []
    let joined := List.replicate slashes '/' ++ joinChunks ['/'] comps
    if joined = [] then ['.'] else joined

/-- `os.path.normpath`. -/
def normpath (p : String) : String := String.mk (normpathL p.data)

/-- `os.path.dirname` on character lists: everything up to the last
slash, with trailing slashes stripped unless the head is all slashes. -/
def dirnameL (p : List Char) : List Char :=
  let head := ((p.reverse).dropWhile (fun c => c ≠ '/')).reverse
  if head ≠ [] ∧ head.any (fun c => c ≠ '/') then
    ((head.reverse).dropWhile (fun c => c = '/')).reverse
  else head

/-- `os.path.dirname`. -/
def dirname (p : String) : String := String.mk (dirnameL p.data)

/-! ## `os.path.relpath`

`relpath(path, start)` makes both arguments absolute against the process
working directory, splits them into non-empty components, and returns
`..` steps up from `start` followed by the residue of `path`.  The model
takes the working directory as an explicit list `cwd` of its path
components (each non-empty, slash-free, not `.` or `..`, as a real
`getcwd()` yields). -/

/-- One step of absolute-path normalisation over components: skip empty
and `.`, let `..` pop (or vanish at the root), push anything else. -/
def absStep (acc : List String) (c : String) : List String :=
  if c = "" ∨ c = "." then acc
  else if c = ".." then acc.tail
  else c :: acc

/-- Components of a string path, as Python `p.split("/")` mapped to
strings. -/
def splitSStr (p : String) : List String := (splitS p.data).map String.mk

/-- The non-empty components of `abspath(p)` when the process working
directory has components `cwd`. -/
def absCompsOf (cwd : List String) (p : String) : List String :=
  if strStartsWith p "/" then ((splitSStr p).foldl absStep []).reverse
  else ((cwd ++ splitSStr p).foldl absStep []).reverse

/-- Length of the common prefix of two component lists. -/
def commonPrefixLen : List String → List String → Nat
  | a :: as, b :: bs => if a = b then 1 + commonPrefixLen as bs else 0
  | _, _ => 0

/-- `os.path.relpath(path, start)` with the process working directory
given as the component list `cwd`. -/
def relpathCwd (cwd : List String) (path start : String) : String :=
  let pl := absCompsOf cwd path
  let sl := absCompsOf cwd start
  let i := commonPrefixLen sl pl
  let rel := List.replicate (sl.length - i) ".." ++ pl.drop i
  if rel = [] then "." else pyJoinSep "/" rel

/-! ## The filesystem seen by the process

A node is a regular file (its `readlines()` result) or a directory whose
entries pair a name with a node.  The model world is the node of the
process working directory, so the extraction root `./virtual_fs` is the
entry named `virtual_fs`.  Resolved path strings are interpreted by
splitting on `/` and dropping empty and `.` components; a path that still
contains `..` points above the working directory, outside the modelled
tree, and resolves to nothing. -/

inductive FSNode where
  | file (lines : List String)
  | dir (entries : List (String × FSNode))

/-- Find the node of a named entry in a directory's entry list. -/
def findEntry : List (String × FSNode) → String → Option FSNode
  | [], _ => none
  | e :: rest, c => if e.1 = c then some e.2 else findEntry rest c

/-- Walk a component list down a tree. -/
def lookupComps : List String → FSNode → Option FSNode
  | [], n => some n
  | _ :: _, FSNode.file _ => none
  | c :: rest, FSNode.dir es =>
    match findEntry es c with
    | some m => lookupComps rest m
    | none => none

/-- Remove the node at a component list (no-op when the path does not
lead to an entry); used to model `os.rmdir`, which the source only calls
on directories it has just checked to be empty. -/
def removeComps : List String → FSNode → FSNode
  | [], n => n
  | _ :: _, FSNode.file ls => FSNode.file ls
  | [c], FSNode.dir es => FSNode.dir (es.filter (fun e => e.1 != c))
  | c :: c2 :: rest, FSNode.dir es =>
    FSNode.dir (es.map (fun e => if e.1 = c then (e.1, removeComps (c2 :: rest) e.2) else e))

/-- The components of a real-path string: split on `/`, drop empty and
`.` fields. -/
def pathComps (p : String) : List String :=
  ((splitS p.data).map String.mk).filter (fun c => c != "" && c != ".")

/-- Resolve a real-path string in the world `w`; paths containing `..`
lie above the modelled working directory and resolve to nothing. -/
def fsLookup (w : FSNode) (p : String) : Option FSNode :=
  if (pathComps p).contains ".." then none else lookupComps (pathComps p) w

/-- `os.path.exists`. -/
def fsExists (w : FSNode) (p : String) : Bool := (fsLookup w p).isSome

/-- `os.path.isdir`. -/
def fsIsDir (w : FSNode) (p : String) : Bool :=
  match fsLookup w p with
  | some (FSNode.dir _) => true
  | _ => false

/-- `os.path.isfile`. -/
def fsIsFile (w : FSNode) (p : String) : Bool :=
  match fsLookup w p with
  | some (FSNode.file _) => true
  | _ => false

/-- The source's `is_empty`: `not os.listdir(directory)`.  In the model a
missing or non-directory path counts as non-empty; in the source that
would raise, but every path the source passes here is an ancestor of a
directory it has just removed, and those all exist as directories. -/
def fsIsEmptyDir (w : FSNode) (p : String) : Bool :=
  match fsLookup w p with
  | some (FSNode.dir es) => es.isEmpty
  | _ => false

/-- `os.rmdir` at a real-path string (see `removeComps`). -/
def fsRemove (w : FSNode) (p : String) : FSNode :=
  if (pathComps p).contains ".." then w else removeComps (pathComps p) w

mutual
/-- Height of a tree: an upper bound on the directory nesting depth,
used as recursion fuel for the recursive `ls` listing. -/
def FSNode.height : FSNode → Nat
  | FSNode.file _ => 1
  | FSNode.dir es => 1 + heightList es
def heightList : List (String × FSNode) → Nat
  | [] => 0
  | (_, n) :: rest => max (FSNode.height n) (heightList rest)
end

/-! ## Path resolution (`_get_real_path`) -/

/-- The source's `self.virtual_fs_root`. -/
def virtualFsRoot : String := "./virtual_fs"

/-- `_get_real_path` on character lists: join a non-absolute user path
onto the current directory, strip outer slashes, join onto
`./virtual_fs`, and normalise. -/
def getRealPathL (currentDir path : List Char) : List Char :=
  let path := if path.head? = some '/' then path else posixJoinL currentDir path
  normpathL (posixJoinL virtualFsRoot.data (stripSlashL path))

/-- The source's `_get_real_path(path)` given `self.current_dir`. -/
def getRealPath (currentDir path : String) : String :=
  String.mk (getRealPathL currentDir.data path.data)

/-- A real path lies within the virtual root when, normalised, it is the
normalised root or sits strictly below it.  This is the semantic reading
of the confinement invariant in the specification. -/
def withinVirtualRoot (p : String) : Bool :=
  (normpath p == normpath virtualFsRoot) ||
    strStartsWith (normpath p) (normpath virtualFsRoot ++ "/")

/-! ## Python exceptions the source lets escape -/

/-- Exceptions relevant to the claims.  `run` catches only
`KeyboardInterrupt` and `EOFError`, and `ls` catches only
`PermissionError`, so any of these propagates out of the command that
raised it and terminates the session without a log flush. -/
inductive PyError where
  | indexError
  | notADirectoryError
  | permissionError
deriving DecidableEq

/-! ## The `ls` command -/

/-- The path argument `ls` resolves: `args[0] if args and args[0] != "-R"
else "."`. -/
def lsTargetPath (currentDir : String) (args : List String) : String :=
  getRealPath currentDir
    (match args with
     | a :: _ => if a ≠ "-R" then a else "."
     | [] => ".")

/-- Whether a name in an entry list is a directory, modelling the
source's `os.path.isdir(os.path.join(directory, item))` (the filesystem
does not change during a listing, so the joined path resolves to the
entry of that name). -/
def entryIsDirB (es : List (String × FSNode)) (item : String) : Bool :=
  match findEntry es item with
  | some (FSNode.dir _) => true
  | _ => false

/-- The single listing line `list_directory` prints: sorted entry names,
directories suffixed with `/`, joined by two spaces (an empty directory
gives an empty line). -/
def listingLine (es : List (String × FSNode)) : String :=
  pyJoinSep "  " ((sortStrings (es.map (fun e => e.1))).map
    (fun item => if entryIsDirB es item then item ++ "/" else item))

/-- The header text of `list_directory`:
`directory[len(self.virtual_fs_root):] or "/"`.  The length of
`./virtual_fs` is 12 while resolved paths start with the 10 characters
`virtual_fs`, so two further characters are dropped. -/
def lsHeaderRel (directory : String) : String :=
  let r := pyDrop 12 directory
  if r = "" then "/" else r

/-- The source's `recursive_list`, carried out over the entry list of the
directory node together with its real-path string (fuel bounds the
nesting depth; `lsCmd` supplies the tree height, which always suffices):
print the header and listing, then for each item in sorted order that is
a directory print a blank line and recurse into
`os.path.join(directory, item)`. -/
def recListCode : Nat → List (String × FSNode) → String → List String
  | 0, _, _ => []
  | fuel + 1, es, directory =>
    (lsHeaderRel directory ++ ":") :: listingLine es ::
      (sortStrings (es.map (fun e => e.1))).flatMap (fun item =>
        match findEntry es item with
        | some (FSNode.dir es2) => "" :: recListCode fuel es2 (posixJoin directory item)
        | _ => [])

/-- The `ls` command.  After the existence check the source calls
`os.listdir` on the target (via `list_directory`), which raises an
uncaught `NotADirectoryError` when the target is a file — the only
exception `list_directory` handles is `PermissionError`. -/
def lsCmd (w : FSNode) (currentDir : String) (args : List String) :
    Except PyError (List String) :=
  let recursive := args.contains "-R"
  let path := lsTargetPath currentDir args
  if fsExists w path then
    match fsLookup w path with
    | some (FSNode.dir es) =>
      if recursive then Except.ok (recListCode (FSNode.height (FSNode.dir es)) es path)
      else Except.ok [listingLine es]
    | _ => Except.error PyError.notADirectoryError
  else
    Except.ok ["ls: cannot access \x27" ++ path ++ "\x27: No such file or directory"]

/-! ## The `cd` command -/

/-- The `cd` command: returns the new `current_dir` and the printed
lines.  A resolution result of exactly `.` is rejected as permission
denied; an existing directory updates `current_dir` to
`os.path.relpath(real_path, self.virtual_fs_root)`. -/
def cdCmd (cwd : List String) (w : FSNode) (currentDir : String)
    (args : List String) : String × List String :=
  match args with
  | [] => (currentDir, ["Usage: cd <directory>"])
  | target :: _ =>
    let real := getRealPath currentDir target
    if real = "." then (currentDir, ["cd: permission denied: " ++ target])
    else if fsIsDir w real then (relpathCwd cwd real virtualFsRoot, [])
    else (currentDir, ["cd: no such file or directory: " ++ target])

/-! ## The `rmdir` command -/

/-- The `-p` ancestor walk of `rmdir`: while the parent path string
starts with `virtual_fs` and the parent is empty, remove it and step to
its `os.path.dirname`.  Returns the world, the printed lines, and the
list of real paths removed (the walk removes at most one directory per
character of the starting path, so `rmdirCmd` passes enough fuel for the
walk to run to its stopping condition). -/
def rmdirWalk (cwd : List String) (verbose : Bool) :
    Nat → FSNode → String → FSNode × List String × List String
  | 0, w, _ => (w, [], [])
  | fuel + 1, w, parentPath =>
    if strStartsWith parentPath "virtual_fs" && fsIsEmptyDir w parentPath then
      let w' := fsRemove w parentPath
      let msgs := if verbose then
          ["Removed parent directory: " ++ relpathCwd cwd parentPath virtualFsRoot]
        else []
      let r := rmdirWalk cwd verbose fuel w' (dirname parentPath)
      (r.1, msgs ++ r.2.1, parentPath :: r.2.2)
    else (w, [], [])

/-- The `rmdir` command: flag/path separation, the `virtual_fs` prefix
check, existence, directory and emptiness checks, removal, and the
optional `-p` ancestor walk.  The source's `except OSError` arm is not
modelled: in a tree world every ancestor of the removed directory
exists, so no modelled operation in the guarded block fails. -/
def rmdirCmd (cwd : List String) (w : FSNode) (currentDir : String)
    (args : List String) : FSNode × List String :=
  match args with
  | [] => (w, ["Usage: rmdir [-p] [-v] <directory>"])
  | _ =>
    let flags := args.filter (fun a => strStartsWith a "-")
    let paths := args.filter (fun a => !strStartsWith a "-")
    match paths with
    | [] => (w, ["Usage: rmdir [-p] [-v] <directory>"])
    | p0 :: _ =>
      let target := getRealPath currentDir p0
      if strStartsWith target "virtual_fs" then
        if fsExists w target then
          if fsIsDir w target then
            if fsIsEmptyDir w target then
              let verbose := flags.contains "-v"
              let w1 := fsRemove w target
              let out1 := if verbose then ["Removed directory: " ++ p0] else []
              if flags.contains "-p" then
                let r := rmdirWalk cwd verbose (target.data.length + 1) w1 (dirname target)
                (r.1, out1 ++ r.2.1)
              else (w1, out1)
            else (w, ["rmdir: directory not empty: " ++ p0])
          else (w, ["rmdir: " ++ p0 ++ " is not a directory"])
        else (w, ["rmdir: no such file or directory: " ++ p0])
      else (w, ["rmdir: permission denied: " ++ p0])

/-! ## The `tail` command -/

/-- Python `lines[-num_lines:]` for an arbitrary integer `num_lines`:
a positive count keeps the last `num_lines` elements (all of them when
the count exceeds the length), while zero keeps the whole list and a
negative count drops the first `-num_lines` elements. -/
def pyTailSlice (lines : List String) (numLines : Int) : List String :=
  if 0 < numLines then lines.drop (lines.length - numLines.toNat)
  else lines.drop ((-numLines).toNat)

/-- The body of `tail` after option stripping: `args[0]` raises an
uncaught `IndexError` when no positional argument remains; otherwise the
usual existence and regular-file checks, then the joined last lines
printed with no added newline. -/
def tailBody (w : FSNode) (currentDir : String) (args : List String)
    (numLines : Int) : Except PyError (List String) :=
  match args with
  | [] => Except.error PyError.indexError
  | a :: _ =>
    let filePath := getRealPath currentDir a
    match fsLookup w filePath with
    | none => Except.ok ["tail: cannot open \x27" ++ a ++ "\x27: No such file or directory"]
    | some (FSNode.dir _) => Except.ok ["tail: " ++ a ++ " is not a regular file"]
    | some (FSNode.file lines) => Except.ok [pyJoin (pyTailSlice lines numLines)]

/-- The `tail` command: empty argument list prints usage; a `-n` option
anywhere takes the following argument as an integer count (missing value
or a parse failure prints usage) and is stripped from the argument list;
the default count is 10. -/
def tailCmd (w : FSNode) (currentDir : String) (args : List String) :
    Except PyError (List String) :=
  match args with
  | [] => Except.ok ["Usage: tail [-n <number_of_lines>] <file>"]
  | _ =>
    if args.contains "-n" then
      let i := args.indexOf "-n"
      match args[i + 1]? with
      | none => Except.ok ["Usage: tail [-n <number_of_lines>] <file>"]
      | some s =>
        match pyInt? s with
        | none => Except.ok ["Usage: tail [-n <number_of_lines>] <file>"]
        | some n => tailBody w currentDir (args.take i ++ args.drop (i + 2)) n
    else tailBody w currentDir args 10

/-! ## Command dispatch and the session loops -/

/-- One log record: `{"user": ..., "action": ..., "details": ...}`. -/
structure LogEntry where
  user : String
  action : String
  details : Option String
deriving DecidableEq

/-- The entry `_log_action("script_command", line)` appends. -/
def mkScriptEntry (user line : String) : LogEntry :=
  { user := user, action := "script_command", details := some line }

/-- The entry `_log_action("input", command)` appends. -/
def mkInputEntry (user command : String) : LogEntry :=
  { user := user, action := "input", details := some command }

/-- The verb dispatch shared by `run` and `run_command`: run one command
against the world and current directory, returning the new world, the
new current directory and the printed lines, or the exception the
command raised. -/
def dispatchCommand (cwd : List String) (w : FSNode) (currentDir : String)
    (cmd : String) (args : List String) :
    Except PyError (FSNode × String × List String) :=
  if cmd = "ls" then (lsCmd w currentDir args).map (fun out => (w, currentDir, out))
  else if cmd = "cd" then
    Except.ok (w, (cdCmd cwd w currentDir args).1, (cdCmd cwd w currentDir args).2)
  else if cmd = "rmdir" then
    Except.ok ((rmdirCmd cwd w currentDir args).1, currentDir,
      (rmdirCmd cwd w currentDir args).2)
  else if cmd = "tail" then (tailCmd w currentDir args).map (fun out => (w, currentDir, out))
  else Except.ok (w, currentDir, ["Unknown command: " ++ cmd])

/-- `_execute_script` over the script's lines: strip each line, skip
blank ones, log non-blank ones as `script_command` entries and dispatch
them through `run_command` (which has no `exit` arm, so `exit` in a
script is an unknown command).  An exception from a command propagates
and ends the session without a flush. -/
def execScript (cwd : List String) (user : String) :
    List String → FSNode × String × List LogEntry →
    Except PyError (FSNode × String × List LogEntry)
  | [], st => Except.ok st
  | l :: rest, (w, currentDir, log) =>
    let c := pyStrip l
    if c = "" then execScript cwd user rest (w, currentDir, log)
    else
      let log' := log ++ [mkScriptEntry user c]
      match splitWs c with
      | [] => Except.error PyError.indexError
      | cmd :: args =>
        match dispatchCommand cwd w currentDir cmd args with
        | Except.error e => Except.error e
        | Except.ok st => execScript cwd user rest (st.1, st.2.1, log')

/-- The interactive loop of `run` over the list of lines the user will
type: strip, skip blank lines, log non-blank ones as `input` entries;
the verb `exit` flushes the log and stops, end of input (`EOFError`)
does the same, and any exception a command raises propagates out of the
loop so the log is never flushed. -/
def runLoop (cwd : List String) (user : String) :
    List String → FSNode × String × List LogEntry → Except PyError (List LogEntry)
  | [], (_, _, log) => Except.ok log
  | l :: rest, (w, currentDir, log) =>
    let c := pyStrip l
    if c = "" then runLoop cwd user rest (w, currentDir, log)
    else
      let log' := log ++ [mkInputEntry user c]
      match splitWs c with
      | [] => Except.error PyError.indexError
      | cmd :: args =>
        if cmd = "exit" then Except.ok log'
        else
          match dispatchCommand cwd w currentDir cmd args with
          | Except.error e => Except.error e
          | Except.ok st => runLoop cwd user rest (st.1, st.2.1, log')

/-- A whole session (`run`): the optional start script (`none` also
covers a script path that fails to open, which logs nothing), then the
interactive loop; the result is the flushed log, or the exception that
terminated the session without a flush. -/
def runSession (cwd : List String) (user : String) (w : FSNode)
    (currentDir : String) (script : Option (List String))
    (inputs : List String) : Except PyError (List LogEntry) :=
  match script with
  | none => runLoop cwd user inputs (w, currentDir, [])
  | some lines =>
    match execScript cwd user lines (w, currentDir, []) with
    | Except.error e => Except.error e
    | Except.ok (w', cur', log) => runLoop cwd user inputs (w', cur', log)

/-! ## Definitions taken from the specification's words

These are not translations of the source; they state what the
specification (or a claim) says the observable behaviour is, to be
compared against the source-derived definitions above. -/

/-- Claim C6's description of the recursive listing: for every directory
visited, a header of the path relative to the virtual root (the root
itself printed as `/`), then the sorted listing, then a blank line, and
then the recursion into each subdirectory in sorted order. -/
def recListClaim : Nat → List (String × FSNode) → String → List String
  | 0, _, _ => []
  | fuel + 1, es, rel =>
    (rel ++ ":") :: listingLine es :: "" ::
      (sortStrings (es.map (fun e => e.1))).flatMap (fun item =>
        match findEntry es item with
        | some (FSNode.dir es2) =>
          recListClaim fuel es2 (if rel = "/" then "/" ++ item else rel ++ "/" ++ item)
        | _ => [])

/-- The subdirectories of an entry list in sorted order, each with its
entry list. -/
def dirEntriesSorted (es : List (String × FSNode)) :
    List (String × List (String × FSNode)) :=
  (sortStrings (es.map (fun e => e.1))).filterMap (fun item =>
    match findEntry es item with
    | some (FSNode.dir es2) => some (item, es2)
    | _ => none)

/-- The amended description of the recursive listing: for every
directory visited, a header obtained by dropping the first twelve
characters of its real path (`/` when nothing remains), then the sorted
listing, and then, for each subdirectory in sorted order, a blank line
followed by that subdirectory's recursive output. -/
def recListAmended : Nat → List (String × FSNode) → String → List String
  | 0, _, _ => []
  | fuel + 1, es, directory =>
    (lsHeaderRel directory ++ ":") :: listingLine es ::
      (dirEntriesSorted es).flatMap (fun e =>
        "" :: recListAmended fuel e.2 (posixJoin directory e.1))

/-- The log entries the specification predicts for a script: one
`script_command` entry per non-blank stripped line, in order. -/
def scriptLogEntries (user : String) (lines : List String) : List LogEntry :=
  ((lines.map pyStrip).filter (fun l => l ≠ "")).map (mkScriptEntry user)

/-- The interactive commands a session processes: the stripped non-blank
lines up to and including the first one whose verb is `exit`. -/
def processedInputs : List String → List String
  | [] => []
  | l :: rest =>
    let c := pyStrip l
    if c = "" then processedInputs rest
    else if (splitWs c).head? = some "exit" then [c]
    else c :: processedInputs rest

/-- The number of non-blank command lines in a list of input lines, the
`m` of claim C9. -/
def nonBlankCount (lines : List String) : Nat :=
  ((lines.map pyStrip).filter (fun l => l ≠ "")).length

/-! ## Concrete worlds used by counterexamples and witnesses -/

/-- A world whose virtual root holds a single chain `a/b/c` of empty
directories. -/
def wChain : FSNode :=
  FSNode.dir [("virtual_fs",
    FSNode.dir [("a", FSNode.dir [("b", FSNode.dir [("c", FSNode.dir [])])])])]

/-- A world whose virtual root holds one one-line file `f.txt`. -/
def wTail : FSNode :=
  FSNode.dir [("virtual_fs", FSNode.dir [("f.txt", FSNode.file ["hello\n"])])]

/-- A world whose virtual root holds one empty directory `a`. -/
def wOneDir : FSNode :=
  FSNode.dir [("virtual_fs", FSNode.dir [("a", FSNode.dir [])])]

/-- A world like the test fixture: a file and an empty and a non-empty
directory. -/
def wFixture : FSNode :=
  FSNode.dir [("virtual_fs", FSNode.dir
    [("empty_dir", FSNode.dir []),
     ("file1.txt", FSNode.file ["Line 1\n", "Line 2\n", "Line 3\n"]),
     ("non_empty_dir", FSNode.dir [("file2.txt", FSNode.file ["Another file"])])])]

/-! ## Helper lemmas about the filesystem model -/

theorem findEntry_filter_self (es : List (String × FSNode)) (c : String) :
    findEntry (es.filter (fun e => e.1 != c)) c = none := by
  induction es with
  | nil => rfl
  | cons e rest ih =>
    by_cases h : e.1 = c
    · simp [List.filter_cons, h, ih]
    · simp [List.filter_cons, bne_iff_ne, h, findEntry, ih]

theorem findEntry_filter_other (es : List (String × FSNode)) (c c' : String)
    (h : c' ≠ c) : findEntry (es.filter (fun e => e.1 != c)) c' = findEntry es c' := by
  induction es with
  | nil => rfl
  | cons e rest ih =>
    by_cases he : e.1 = c
    · have he' : e.1 ≠ c' := by rw [he]; exact fun hc => h hc.symm
      have hcc : ¬ c = c' := by rw [← he]; exact he'
      simp [List.filter_cons, he, findEntry, he', hcc, ih]
    · by_cases he' : e.1 = c'
      · simp [List.filter_cons, bne_iff_ne, he, findEntry, he', h]
      · simp [List.filter_cons, bne_iff_ne, he, findEntry, he', ih]

theorem findEntry_map_self (es : List (String × FSNode)) (c : String)
    (f : FSNode → FSNode) :
    findEntry (es.map (fun e => if e.1 = c then (e.1, f e.2) else e)) c =
      (findEntry es c).map f := by
  induction es with
  | nil => rfl
  | cons e rest ih =>
    by_cases he : e.1 = c
    · simp [findEntry, he, ih]
    · simp [findEntry, he, ih]

theorem findEntry_map_other (es : List (String × FSNode)) (c c' : String)
    (f : FSNode → FSNode) (h : c' ≠ c) :
    findEntry (es.map (fun e => if e.1 = c then (e.1, f e.2) else e)) c' =
      findEntry es c' := by
  induction es with
  | nil => rfl
  | cons e rest ih =>
    by_cases he : e.1 = c
    · have he' : e.1 ≠ c' := by rw [he]; exact fun hc => h hc.symm
      have hcc : c ≠ c' := by rw [← he]; exact he'
      simp [findEntry, he, he', hcc, ih]
    · simp [findEntry, he, ih]

theorem lookupComps_removeComps_self (p : List String) (hp : p ≠ []) :
    ∀ n : FSNode, lookupComps p (removeComps p n) = none := by
  induction p with
  | nil => exact absurd rfl hp
  | cons c q ih =>
    intro n
    cases q with
    | nil =>
      cases n with
      | file ls => rfl
      | dir es => simp [removeComps, lookupComps, findEntry_filter_self]
    | cons c2 rest =>
      cases n with
      | file ls => rfl
      | dir es =>
        simp only [removeComps, lookupComps, findEntry_map_self]
        cases hfe : findEntry es c with
        | none => simp
        | some m => simp [ih (by simp) m]

theorem lookupComps_removeComps_isSome (p : List String) (hp : p ≠ []) :
    ∀ (n : FSNode) (q : List String), q ≠ p →
      lookupComps p n = some (FSNode.dir []) →
      (lookupComps q (removeComps p n)).isSome = (lookupComps q n).isSome := by
  induction p with
  | nil => exact absurd rfl hp
  | cons c p' ih =>
    intro n q hq hemp
    cases n with
    | file ls => simp [lookupComps] at hemp
    | dir es =>
      cases p' with
      | nil =>
        have hfe : findEntry es c = some (FSNode.dir []) := by
          simp only [lookupComps] at hemp
          cases hfe : findEntry es c with
          | none => rw [hfe] at hemp; simp at hemp
          | some m =>
            rw [hfe] at hemp
            simp [lookupComps] at hemp
            rw [hemp]
        cases q with
        | nil => simp [removeComps, lookupComps]
        | cons c' q' =>
          by_cases hc : c' = c
          · subst hc
            cases q' with
            | nil => exact absurd rfl hq
            | cons d q'' =>
              simp [removeComps, lookupComps, findEntry_filter_self, hfe, findEntry]
          · simp [removeComps, lookupComps, findEntry_filter_other es c c' hc]
      | cons c2 rest =>
        have hstep : ∃ m, findEntry es c = some m ∧
            lookupComps (c2 :: rest) m = some (FSNode.dir []) := by
          simp only [lookupComps] at hemp
          cases hfe : findEntry es c with
          | none => rw [hfe] at hemp; simp at hemp
          | some m => rw [hfe] at hemp; exact ⟨m, rfl, hemp⟩
        obtain ⟨m, hfe, hm⟩ := hstep
        cases q with
        | nil => simp [removeComps, lookupComps]
        | cons c' q' =>
          by_cases hc : c' = c
          · subst hc
            have hq' : q' ≠ c2 :: rest := fun h => hq (by rw [h])
            simp only [removeComps, lookupComps, findEntry_map_self, hfe, Option.map_some']
            exact ih (by simp) m q' hq' hm
          · simp [removeComps, lookupComps, findEntry_map_other es c c' _ hc]

theorem splitS_ne_nil : ∀ cs : List Char, splitS cs ≠ [] := by
  intro cs
  induction cs with
  | nil => simp [splitS]
  | cons c rest ih =>
    by_cases h : c = '/'
    · simp [splitS, h]
    · simp only [splitS, if_neg h]
      cases hs : splitS rest with
      | nil => simp
      | cons g gs => simp

theorem splitS_noslash (cs : List Char) (h : '/' ∉ cs) : splitS cs = [cs] := by
  induction cs with
  | nil => rfl
  | cons c rest ih =>
    have hc : c ≠ '/' := fun hc => h (by rw [hc]; exact List.mem_cons_self _ _)
    have hr : '/' ∉ rest := fun hm => h (List.mem_cons_of_mem _ hm)
    simp only [splitS, if_neg hc, ih hr]

theorem splitS_append (xs ys : List Char) (h : '/' ∉ xs) :
    splitS (xs ++ '/' :: ys) = xs :: splitS ys := by
  induction xs with
  | nil => simp [splitS]
  | cons c rest ih =>
    have hc : c ≠ '/' := fun hc => h (by rw [hc]; exact List.mem_cons_self _ _)
    have hr : '/' ∉ rest := fun hm => h (List.mem_cons_of_mem _ hm)
    simp only [List.cons_append, splitS, if_neg hc, List.append_eq]
    rw [ih hr]

theorem pathComps_ne_nil_of_vf (t : String)
    (h : strStartsWith t "virtual_fs" = true) : pathComps t ≠ [] := by
  have hdat : ∃ rest, t.data = 'v' :: rest := by
    have hp : "virtual_fs".data <+: t.data := by
      rw [← List.isPrefixOf_iff_prefix]
      exact h
    obtain ⟨tail, htail⟩ := hp
    exact ⟨_, by rw [← htail]; rfl⟩
  obtain ⟨rest, hrest⟩ := hdat
  unfold pathComps
  rw [hrest]
  simp only [splitS]
  cases hs : splitS rest with
  | nil => exact absurd hs (splitS_ne_nil rest)
  | cons g gs =>
    have h1 : (String.mk ('v' :: g) != "") = true := by
      simp [bne_iff_ne]
      intro hmk
      have hd := congrArg String.data hmk
      simp at hd
    have h2 : (String.mk ('v' :: g) != ".") = true := by
      simp [bne_iff_ne]
      intro hmk
      have := congrArg String.data hmk
      simp at this
    simp [List.filter_cons, h1, h2]


/-- Claim C7 (confirmed): for every existing directory inside the
virtual root, `rmdir` on a non-empty directory prints exactly the
`directory not empty` error and leaves the world unchanged, while
`rmdir` on an empty directory prints nothing, removes exactly that
directory, and leaves the existence of every other path unchanged — no
recursive deletion. -/
theorem rmdir_claim7 (cwd : List String) (w : FSNode) (currentDir a : String)
    (es : List (String × FSNode))
    (hflag : strStartsWith a "-" = false)
    (hpre : strStartsWith (getRealPath currentDir a) "virtual_fs" = true)
    (hdir : fsLookup w (getRealPath currentDir a) = some (FSNode.dir es)) :
    (es ≠ [] → rmdirCmd cwd w currentDir [a] =
        (w, ["rmdir: directory not empty: " ++ a]) ∧
      fsExists w (getRealPath currentDir a) = true) ∧
    (es = [] →
      fsExists (rmdirCmd cwd w currentDir [a]).1 (getRealPath currentDir a) = false ∧
      (rmdirCmd cwd w currentDir [a]).2 = [] ∧
      ∀ q : String, pathComps q ≠ pathComps (getRealPath currentDir a) →
        fsExists (rmdirCmd cwd w currentDir [a]).1 q = fsExists w q) := by
  have hdd : ".." ∉ pathComps (getRealPath currentDir a) := by
    intro hmem
    rw [fsLookup, if_pos (by simpa using hmem)] at hdir
    exact absurd hdir (by simp)
  have hlook : lookupComps (pathComps (getRealPath currentDir a)) w =
      some (FSNode.dir es) := by
    rw [fsLookup, if_neg (by simpa using hdd)] at hdir
    exact hdir
  have hexists : fsExists w (getRealPath currentDir a) = true := by
    simp [fsExists, hdir]
  have hisdir : fsIsDir w (getRealPath currentDir a) = true := by
    simp [fsIsDir, hdir]
  have hne : pathComps (getRealPath currentDir a) ≠ [] :=
    pathComps_ne_nil_of_vf _ hpre
  constructor
  · intro hes
    have hnotempty : fsIsEmptyDir w (getRealPath currentDir a) = false := by
      cases es with
      | nil => exact absurd rfl hes
      | cons e es' => simp [fsIsEmptyDir, hdir]
    constructor
    · simp [rmdirCmd, hflag, hpre, hexists, hisdir, hnotempty]
    · exact hexists
  · intro hes
    subst hes
    have hempty : fsIsEmptyDir w (getRealPath currentDir a) = true := by
      simp [fsIsEmptyDir, hdir]
    have hcmd : rmdirCmd cwd w currentDir [a] =
        (fsRemove w (getRealPath currentDir a), []) := by
      simp [rmdirCmd, hflag, hpre, hexists, hisdir, hempty]
    rw [hcmd]
    have hrem : fsRemove w (getRealPath currentDir a) =
        removeComps (pathComps (getRealPath currentDir a)) w := by
      rw [fsRemove, if_neg (by simpa using hdd)]
    refine ⟨?_, rfl, ?_⟩
    · rw [hrem]
      simp [fsExists, fsLookup, hdd, lookupComps_removeComps_self _ hne w]
    · intro q hq
      rw [hrem]
      by_cases hcq : ".." ∈ pathComps q
      · simp [fsExists, fsLookup, hcq]
      · have hb : (pathComps q).contains ".." = false := by simpa using hcq
        simp only [fsExists, fsLookup, hb, Bool.false_eq_true, if_false]
        exact lookupComps_removeComps_isSome _ hne w (pathComps q) hq hlook

/-- Claim C10 (confirmed): `ls` on an existing path that is a regular
file passes the existence check and then raises `NotADirectoryError`
from `os.listdir`, which the command does not handle (it catches only
`PermissionError`), so no `ls` error message is printed. -/
theorem ls_claim10 (w : FSNode) (currentDir a : String) (lines : List String)
    (ha : a ≠ "-R")
    (hfile : fsLookup w (getRealPath currentDir a) = some (FSNode.file lines)) :
    lsCmd w currentDir [a] = Except.error PyError.notADirectoryError := by
  have hpath : lsTargetPath currentDir [a] = getRealPath currentDir a := by
    simp [lsTargetPath, ha]
  simp [lsCmd, hpath, fsExists, hfile]

/-- Claim C5, amended: `-R` anywhere in the arguments turns on
recursive mode, but only `args[0]` is consulted for the path: the
directory listed is `args[0]` when it exists and differs from `-R`, and
defaults to `.` otherwise — so `ls -R p` lists the current directory
recursively while `ls p -R` recursively lists `p`. -/
theorem ls_claim5_amended (currentDir p : String) (hp : p ≠ "-R") :
    lsTargetPath currentDir ["-R", p] = lsTargetPath currentDir [] ∧
    lsTargetPath currentDir [p, "-R"] = getRealPath currentDir p ∧
    (["-R", p].contains "-R") = true ∧ ([p, "-R"].contains "-R") = true := by
  refine ⟨by simp [lsTargetPath], by simp [lsTargetPath, hp], by simp, by simp⟩

/-- Claim C4, amended: for every regular file with `k` lines and every
integer count `n` with `n` at least 1 supplied via `tail -n n`, the
printed payload is exactly the last `min(k, n)` lines of the file in
original order, concatenated with nothing added. -/
theorem tail_claim4 (w : FSNode) (currentDir nstr a : String) (n : Int)
    (lines : List String)
    (hn : pyInt? nstr = some n) (hpos : 1 ≤ n)
    (hfile : fsLookup w (getRealPath currentDir a) = some (FSNode.file lines)) :
    tailCmd w currentDir ["-n", nstr, a] =
      Except.ok [pyJoin (lines.drop (lines.length - n.toNat))] ∧
    pyTailSlice lines n = lines.drop (lines.length - n.toNat) ∧
    (pyTailSlice lines n).length = min lines.length n.toNat := by
  have hslice : pyTailSlice lines n = lines.drop (lines.length - n.toNat) := by
    rw [pyTailSlice, if_pos (by omega)]
  refine ⟨?_, hslice, ?_⟩
  · simp [tailCmd, List.indexOf, List.findIdx, List.findIdx.go, tailBody, hn, hfile, hslice]
  · rw [hslice, List.length_drop]
    omega

/-! ## Helper lemmas about paths and resolution -/

theorem strData_append (a b : String) : (a ++ b).data = a.data ++ b.data := by
  cases a; cases b; rfl

theorem strAppend_mk (a b : String) : a ++ b = String.mk (a.data ++ b.data) := by
  cases a; cases b; rfl

theorem data_ne_nil (X : String) (h : X ≠ "") : X.data ≠ [] := by
  intro hd
  apply h
  cases X
  subst hd
  rfl

theorem data_ne_dot (X : String) (h : X ≠ ".") : X.data ≠ ['.'] := by
  intro hd
  apply h
  cases X
  subst hd
  rfl

theorem data_ne_dotdot (X : String) (h : X ≠ "..") : X.data ≠ ['.', '.'] := by
  intro hd
  apply h
  cases X
  subst hd
  rfl

theorem dropWhile_head_false (p : Char → Bool) (l : List Char)
    (h : ∀ c, l.head? = some c → p c = false) : l.dropWhile p = l := by
  cases l with
  | nil => rfl
  | cons c cs => simp [List.dropWhile_cons, h c rfl]

theorem stripSlashL_noop (l : List Char)
    (hh : l.head? ≠ some '/') (hl : l.getLast? ≠ some '/') :
    stripSlashL l = l := by
  rw [stripSlashL]
  rw [dropWhile_head_false _ l (by
    intro c hc
    simp only [decide_eq_false_iff_not]
    intro hcc
    exact hh (by rw [hc, hcc]))]
  rw [dropWhile_head_false _ l.reverse (by
    intro c hc
    rw [List.head?_reverse] at hc
    simp only [decide_eq_false_iff_not]
    intro hcc
    exact hl (by rw [hc, hcc]))]
  exact List.reverse_reverse l

theorem getLast?_not_mem_ne (l : List Char) (x : Char) (h : x ∉ l) :
    l.getLast? ≠ some x := by
  intro hl
  apply h
  have hh : l.reverse.head? = some x := by rw [List.head?_reverse]; exact hl
  cases lr : l.reverse with
  | nil => rw [lr] at hh; exact absurd hh (by simp)
  | cons a as =>
    rw [lr] at hh
    simp only [List.head?_cons, Option.some_inj] at hh
    have hm : x ∈ l.reverse := by rw [lr, ← hh]; exact List.mem_cons_self _ _
    exact List.mem_reverse.mp hm

theorem getRealPath_dot_name (X : String) (h1 : X ≠ "") (h2 : '/' ∉ X.data)
    (h3 : X ≠ ".") (h4 : X ≠ "..") :
    getRealPath "." X = "virtual_fs/" ++ X := by
  have hd1 := data_ne_nil X h1
  have hd3 := data_ne_dot X h3
  have hd4 := data_ne_dotdot X h4
  obtain ⟨c, cs, hX⟩ : ∃ c cs, X.data = c :: cs := by
    cases hx : X.data with
    | nil => exact absurd hx hd1
    | cons c cs => exact ⟨c, cs, rfl⟩
  have hc : c ≠ '/' := by
    intro h; apply h2; rw [hX, h]; exact List.mem_cons_self _ _
  have e1 : (if X.data.head? = some '/' then X.data
      else posixJoinL ".".data X.data) = '.' :: '/' :: X.data := by
    rw [hX]
    rw [if_neg (by simp [hc])]
    rw [posixJoinL, if_neg (by simp [hc]), if_neg (by simp)]
    rfl
  have e2 : stripSlashL ('.' :: '/' :: X.data) = '.' :: '/' :: X.data := by
    apply stripSlashL_noop
    · simp
    · rw [hX, List.getLast?_cons_cons]
      have hx := getLast?_not_mem_ne (c :: cs) '/' (by rw [← hX]; exact h2)
      cases cs with
      | nil => simpa using hx
      | cons d ds =>
        rw [List.getLast?_cons_cons]
        rw [List.getLast?_cons_cons] at hx
        exact hx
  have e3 : posixJoinL virtualFsRoot.data ('.' :: '/' :: X.data) =
      '.' :: '/' :: ("virtual_fs".data ++ '/' :: ('.' :: '/' :: X.data)) := by
    rw [posixJoinL, if_neg (by simp), if_neg (by decide)]
    rfl
  have hsp : splitS ('.' :: '/' :: ("virtual_fs".data ++ '/' :: ('.' :: '/' :: X.data))) =
      [['.'], "virtual_fs".data, ['.'], X.data] := by
    have s1 : '.' :: '/' :: ("virtual_fs".data ++ '/' :: ('.' :: '/' :: X.data)) =
        ['.'] ++ '/' :: ("virtual_fs".data ++ '/' :: (['.'] ++ '/' :: X.data)) := rfl
    rw [s1, splitS_append _ _ (by decide), splitS_append _ _ (by decide),
      splitS_append _ _ (by decide), splitS_noslash X.data h2]
  have hsegs : normSegs false [['.'], "virtual_fs".data, ['.'], X.data] [] =
      ["virtual_fs".data, X.data] := by
    rw [normSegs, if_pos (by simp)]
    rw [normSegs, if_neg (by decide), if_neg (by decide)]
    rw [normSegs, if_pos (by simp)]
    rw [normSegs, if_neg (by simp [hd1, hd3]), if_neg (by simp [hd4])]
    rw [normSegs]
    rfl
  have e4 : normpathL ('.' :: '/' :: ("virtual_fs".data ++ '/' :: ('.' :: '/' :: X.data))) =
      "virtual_fs/".data ++ X.data := by
    rw [normpathL]
    rw [if_neg (by simp)]
    have hls : leadSlashes ('.' :: '/' :: ("virtual_fs".data ++ '/' :: ('.' :: '/' :: X.data))) = 0 := by
      simp [leadSlashes]
    simp only [hls, hsp]
    rw [show (decide ((0 : Nat) ≠ 0)) = false from rfl]
    rw [show ("virtual_fs".data : List Char) =
      ['v', 'i', 'r', 't', 'u', 'a', 'l', '_', 'f', 's'] from rfl] at hsegs
    rw [hsegs]
    simp [joinChunks]
  show String.mk (getRealPathL ".".data X.data) = "virtual_fs/" ++ X
  rw [getRealPathL]
  simp only []
  rw [e1, e2, e3, e4]
  rw [strAppend_mk "virtual_fs/" X]

theorem getRealPath_name_dotdot (X : String) (h1 : X ≠ "") (h2 : '/' ∉ X.data)
    (h3 : X ≠ ".") (h4 : X ≠ "..") :
    getRealPath X ".." = "virtual_fs" := by
  have hd1 := data_ne_nil X h1
  have hd3 := data_ne_dot X h3
  have hd4 := data_ne_dotdot X h4
  obtain ⟨c, cs, hX⟩ : ∃ c cs, X.data = c :: cs := by
    cases hx : X.data with
    | nil => exact absurd hx hd1
    | cons c cs => exact ⟨c, cs, rfl⟩
  have hc : c ≠ '/' := by
    intro h; apply h2; rw [hX, h]; exact List.mem_cons_self _ _
  have hlast : X.data.getLast? ≠ some '/' := getLast?_not_mem_ne X.data '/' h2
  have hhead : ∀ l : List Char, (X.data ++ l).head? = some c := by
    intro l
    rw [List.head?_append_of_ne_nil _ hd1, hX]
    rfl
  have e1 : (if (".." : String).data.head? = some '/' then (".." : String).data
      else posixJoinL X.data (".." : String).data) = X.data ++ ['/', '.', '.'] := by
    rw [if_neg (by decide)]
    rw [posixJoinL, if_neg (by decide), if_neg (by simp [hd1, hlast])]
  have e2 : stripSlashL (X.data ++ ['/', '.', '.']) = X.data ++ ['/', '.', '.'] := by
    apply stripSlashL_noop
    · rw [hhead]; simp [hc]
    · rw [show (X.data ++ ['/', '.', '.'] : List Char) =
        (X.data ++ ['/', '.']) ++ ['.'] by simp]
      rw [List.getLast?_concat]
      simp
  have e3 : posixJoinL virtualFsRoot.data (X.data ++ ['/', '.', '.']) =
      '.' :: '/' :: ("virtual_fs".data ++ '/' :: (X.data ++ ['/', '.', '.'])) := by
    rw [posixJoinL, if_neg (by rw [hhead]; simp [hc]), if_neg (by decide)]
    rfl
  have hsp : splitS ('.' :: '/' :: ("virtual_fs".data ++ '/' :: (X.data ++ ['/', '.', '.']))) =
      [['.'], "virtual_fs".data, X.data, ['.', '.']] := by
    have s1 : '.' :: '/' :: ("virtual_fs".data ++ '/' :: (X.data ++ ['/', '.', '.'])) =
        ['.'] ++ '/' :: ("virtual_fs".data ++ '/' :: (X.data ++ '/' :: ['.', '.'])) := rfl
    rw [s1, splitS_append _ _ (by decide), splitS_append _ _ (by decide),
      splitS_append _ _ h2, splitS_noslash ['.', '.'] (by decide)]
  have hsegs : normSegs false [['.'], "virtual_fs".data, X.data, ['.', '.']] [] =
      ["virtual_fs".data] := by
    rw [normSegs, if_pos (by simp)]
    rw [normSegs, if_neg (by decide), if_neg (by decide)]
    rw [normSegs, if_neg (by simp [hd1, hd3]), if_neg (by simp [hd4])]
    rw [normSegs, if_neg (by simp), if_pos rfl]
    rw [if_neg hd4]
    rw [normSegs]
    rfl
  have e4 : normpathL ('.' :: '/' :: ("virtual_fs".data ++ '/' :: (X.data ++ ['/', '.', '.']))) =
      "virtual_fs".data := by
    rw [normpathL]
    rw [if_neg (by simp)]
    have hls : leadSlashes ('.' :: '/' :: ("virtual_fs".data ++ '/' :: (X.data ++ ['/', '.', '.']))) = 0 := by
      simp [leadSlashes]
    simp only [hls, hsp]
    rw [show (decide ((0 : Nat) ≠ 0)) = false from rfl]
    rw [show ("virtual_fs".data : List Char) =
      ['v', 'i', 'r', 't', 'u', 'a', 'l', '_', 'f', 's'] from rfl] at hsegs
    rw [hsegs]
    simp [joinChunks]
  show String.mk (getRealPathL X.data (".." : String).data) = "virtual_fs"
  rw [getRealPathL]
  simp only []
  rw [e1, e2, e3, e4]

theorem commonPrefixLen_append (A B : List String) :
    commonPrefixLen A (A ++ B) = A.length := by
  induction A with
  | nil => rfl
  | cons a as ih => simp [commonPrefixLen, ih, Nat.add_comm]

theorem foldl_absStep_name (acc : List String) (X : String)
    (h1 : X ≠ "") (h3 : X ≠ ".") (h4 : X ≠ "..") :
    absStep acc X = X :: acc := by
  rw [absStep, if_neg (by simp [h1, h3]), if_neg h4]

theorem absCompsOf_child (cwd : List String) (X : String) (h1 : X ≠ "")
    (h2 : '/' ∉ X.data) (h3 : X ≠ ".") (h4 : X ≠ "..") :
    absCompsOf cwd ("virtual_fs/" ++ X) =
      (X :: "virtual_fs" :: cwd.foldl absStep []).reverse := by
  have hdata : ("virtual_fs/" ++ X).data = "virtual_fs".data ++ '/' :: X.data := by
    rw [strData_append]
    rfl
  have hstart : strStartsWith ("virtual_fs/" ++ X) "/" = false := by
    rw [strStartsWith, hdata]
    rfl
  have hsplit : splitSStr ("virtual_fs/" ++ X) = ["virtual_fs", X] := by
    rw [splitSStr, hdata, splitS_append _ _ (by decide), splitS_noslash X.data h2]
    rfl
  rw [absCompsOf, if_neg (by rw [hstart]; simp), hsplit, List.foldl_append]
  rw [List.foldl_cons, List.foldl_cons, List.foldl_nil]
  rw [show absStep (cwd.foldl absStep []) "virtual_fs" =
    "virtual_fs" :: cwd.foldl absStep [] from by simp [absStep]]
  rw [foldl_absStep_name _ X h1 h3 h4]

theorem absCompsOf_root (cwd : List String) :
    absCompsOf cwd virtualFsRoot = ("virtual_fs" :: cwd.foldl absStep []).reverse := by
  rw [absCompsOf, if_neg (by decide), show splitSStr virtualFsRoot = [".", "virtual_fs"] from rfl]
  rw [List.foldl_append, List.foldl_cons, List.foldl_cons, List.foldl_nil]
  rw [show absStep (cwd.foldl absStep []) "." = cwd.foldl absStep [] from by simp [absStep]]
  rw [show absStep (cwd.foldl absStep []) "virtual_fs" =
    "virtual_fs" :: cwd.foldl absStep [] from by simp [absStep]]

theorem relpath_child (cwd : List String) (X : String) (h1 : X ≠ "")
    (h2 : '/' ∉ X.data) (h3 : X ≠ ".") (h4 : X ≠ "..") :
    relpathCwd cwd ("virtual_fs/" ++ X) virtualFsRoot = X := by
  rw [relpathCwd]
  simp only [absCompsOf_child cwd X h1 h2 h3 h4, absCompsOf_root cwd, List.reverse_cons]
  rw [commonPrefixLen_append ((cwd.foldl absStep []).reverse ++ ["virtual_fs"]) [X]]
  rw [Nat.sub_self, List.replicate_zero, List.nil_append, List.drop_left]
  rw [if_neg (by simp)]
  rfl

theorem relpath_root (cwd : List String) :
    relpathCwd cwd "virtual_fs" virtualFsRoot = "." := by
  rw [relpathCwd]
  have habs : absCompsOf cwd "virtual_fs" =
      ("virtual_fs" :: cwd.foldl absStep []).reverse := by
    rw [absCompsOf, if_neg (by decide), show splitSStr "virtual_fs" = ["virtual_fs"] from rfl]
    rw [List.foldl_append, List.foldl_cons, List.foldl_nil]
    rw [show absStep (cwd.foldl absStep []) "virtual_fs" =
      "virtual_fs" :: cwd.foldl absStep [] from by simp [absStep]]
  simp only [habs, absCompsOf_root cwd, List.reverse_cons]
  have hc : commonPrefixLen ((cwd.foldl absStep []).reverse ++ ["virtual_fs"])
      ((cwd.foldl absStep []).reverse ++ ["virtual_fs"]) =
      ((cwd.foldl absStep []).reverse ++ ["virtual_fs"]).length := by
    have h := commonPrefixLen_append ((cwd.foldl absStep []).reverse ++ ["virtual_fs"]) []
    rw [List.append_nil] at h
    exact h
  rw [hc, Nat.sub_self, List.replicate_zero, List.nil_append, List.drop_length]
  rfl

/-- Claim C8 (confirmed): from the virtual root, `cd X` into an
existing immediate child directory named `X` followed by `cd ..`
returns the session's current directory to its original value `.`. -/
theorem cd_claim8 (cwd : List String) (w : FSNode) (X : String)
    (h1 : X ≠ "") (h2 : '/' ∉ X.data) (h3 : X ≠ ".") (h4 : X ≠ "..")
    (h5 : fsIsDir w ("virtual_fs/" ++ X) = true)
    (h6 : fsIsDir w "virtual_fs" = true) :
    (cdCmd cwd w "." [X]).1 = X ∧
    (cdCmd cwd w (cdCmd cwd w "." [X]).1 [".."]).1 = "." := by
  have hreal1 := getRealPath_dot_name X h1 h2 h3 h4
  have hne1 : getRealPath "." X ≠ "." := by
    rw [hreal1]
    intro h
    have hd := congrArg String.data h
    rw [strData_append] at hd
    simp at hd
  have hfirst : cdCmd cwd w "." [X] = (X, []) := by
    show (let real := getRealPath "." X
      if real = "." then ("." , ["cd: permission denied: " ++ X])
      else if fsIsDir w real then (relpathCwd cwd real virtualFsRoot, [])
      else (".", ["cd: no such file or directory: " ++ X])) = (X, [])
    simp only [hreal1]
    rw [if_neg (by rw [← hreal1]; exact hne1)]
    rw [if_pos h5]
    rw [relpath_child cwd X h1 h2 h3 h4]
  refine ⟨by rw [hfirst], ?_⟩
  rw [hfirst]
  have hreal2 := getRealPath_name_dotdot X h1 h2 h3 h4
  have hne2 : getRealPath X ".." ≠ "." := by
    rw [hreal2]
    intro h
    have hd := congrArg String.data h
    simp at hd
  show (let real := getRealPath X ".."
    if real = "." then (X, ["cd: permission denied: " ++ ".."])
    else if fsIsDir w real then (relpathCwd cwd real virtualFsRoot, [])
    else (X, ["cd: no such file or directory: " ++ ".."])).1 = "."
  simp only [hreal2]
  rw [if_neg (by rw [← hreal2]; exact hne2)]
  rw [if_pos h6]
  rw [relpath_root cwd]

/-! ## Helper lemmas about the session and listings -/

theorem rmdirWalk_removed_prefixed (cwd : List String) (v : Bool) :
    ∀ (fuel : Nat) (w : FSNode) (p q : String),
      q ∈ (rmdirWalk cwd v fuel w p).2.2 → strStartsWith q "virtual_fs" = true := by
  intro fuel
  induction fuel with
  | zero => intro w p q hq; simp [rmdirWalk] at hq
  | succ fuel ih =>
    intro w p q hq
    by_cases hg : (strStartsWith p "virtual_fs" && fsIsEmptyDir w p) = true
    · rw [rmdirWalk] at hq
      rw [if_pos hg] at hq
      simp only [List.mem_cons] at hq
      cases hq with
      | inl h => rw [h]; exact (Bool.and_eq_true _ _ |>.mp hg).1
      | inr h => exact ih _ _ q h
    · rw [rmdirWalk] at hq
      rw [if_neg hg] at hq
      simp at hq

theorem flatMap_dirs (es : List (String × FSNode))
    (F : String → List (String × FSNode) → List String) :
    ∀ l : List String,
      l.flatMap (fun item =>
        match findEntry es item with
        | some (FSNode.dir es2) => "" :: F item es2
        | _ => []) =
      (l.filterMap (fun item =>
        match findEntry es item with
        | some (FSNode.dir es2) => some (item, es2)
        | _ => none)).flatMap (fun e => "" :: F e.1 e.2) := by
  intro l
  induction l with
  | nil => rfl
  | cons item rest ih =>
    rw [List.flatMap_cons, List.filterMap_cons]
    cases hfe : findEntry es item with
    | none => simpa [hfe] using ih
    | some m =>
      cases m with
      | file ls => simpa [hfe] using ih
      | dir es2 => simp [hfe, List.flatMap_cons, ih]

/-- Claim C6, amended: for every directory the recursive listing
visits, the output is a header obtained by dropping the first twelve
characters of the real path (printing `/` when nothing remains, which
covers the root), then the sorted listing, and then, for each
subdirectory in sorted order, a blank line followed by that
subdirectory's recursive output — so the blank line precedes each
subdirectory block and no blank line follows a directory without
subdirectories.  The source-derived listing equals this description for
every fuel, entry list and path. -/
theorem claim6_amended :
    ∀ (fuel : Nat) (es : List (String × FSNode)) (directory : String),
      recListCode fuel es directory = recListAmended fuel es directory := by
  intro fuel
  induction fuel with
  | zero => intro es d; rfl
  | succ fuel ih =>
    intro es d
    rw [recListCode, recListAmended, dirEntriesSorted]
    rw [flatMap_dirs es (fun item es2 => recListCode fuel es2 (posixJoin d item))]
    have hfun : (fun (e : String × List (String × FSNode)) =>
        "" :: recListCode fuel e.2 (posixJoin d e.1)) =
        (fun e => "" :: recListAmended fuel e.2 (posixJoin d e.1)) := by
      funext e
      rw [ih]
    rw [hfun]

theorem runLoop_log (cwd : List String) (user : String) :
    ∀ (inputs : List String) (w : FSNode) (cur : String) (log L : List LogEntry),
      runLoop cwd user inputs (w, cur, log) = Except.ok L →
      L = log ++ (processedInputs inputs).map (mkInputEntry user) := by
  intro inputs
  induction inputs with
  | nil =>
    intro w cur log L h
    rw [runLoop] at h
    simp at h
    simp [processedInputs, h]
  | cons l rest ih =>
    intro w cur log L h
    rw [runLoop] at h
    by_cases hc : pyStrip l = ""
    · rw [if_pos hc] at h
      have hrec := ih w cur log L h
      rw [processedInputs, if_pos hc]
      exact hrec
    · rw [if_neg hc] at h
      cases hs : splitWs (pyStrip l) with
      | nil =>
        rw [hs] at h
        exact absurd h (by simp)
      | cons cmd args =>
        rw [hs] at h
        have h' : (if cmd = "exit" then
            Except.ok (log ++ [mkInputEntry user (pyStrip l)])
          else
            match dispatchCommand cwd w cur cmd args with
            | Except.error e => Except.error e
            | Except.ok st =>
              runLoop cwd user rest
                (st.1, st.2.1, log ++ [mkInputEntry user (pyStrip l)])) =
            Except.ok L := h
        by_cases he : cmd = "exit"
        · rw [if_pos he] at h'
          simp only [Except.ok.injEq] at h'
          rw [processedInputs, if_neg hc, if_pos (by rw [hs, he]; rfl)]
          simp [← h']
        · rw [if_neg he] at h'
          cases hd : dispatchCommand cwd w cur cmd args with
          | error e => rw [hd] at h'; exact absurd h' (by simp)
          | ok st =>
            rw [hd] at h'
            have hrec := ih st.1 st.2.1 (log ++ [mkInputEntry user (pyStrip l)]) L h'
            rw [processedInputs, if_neg hc, if_neg (by rw [hs]; simp [he])]
            rw [hrec]
            simp

theorem execScript_log (cwd : List String) (user : String) :
    ∀ (lines : List String) (w : FSNode) (cur : String) (log : List LogEntry)
      (st : FSNode × String × List LogEntry),
      execScript cwd user lines (w, cur, log) = Except.ok st →
      st.2.2 = log ++ scriptLogEntries user lines := by
  intro lines
  induction lines with
  | nil =>
    intro w cur log st h
    rw [execScript] at h
    simp only [Except.ok.injEq] at h
    rw [← h]
    simp [scriptLogEntries]
  | cons l rest ih =>
    intro w cur log st h
    rw [execScript] at h
    by_cases hc : pyStrip l = ""
    · rw [if_pos hc] at h
      have hrec := ih w cur log st h
      rw [hrec]
      simp [scriptLogEntries, List.filter_cons, hc]
    · rw [if_neg hc] at h
      cases hs : splitWs (pyStrip l) with
      | nil => rw [hs] at h; exact absurd h (by simp)
      | cons cmd args =>
        rw [hs] at h
        have h' : (match dispatchCommand cwd w cur cmd args with
            | Except.error e => Except.error e
            | Except.ok st' =>
              execScript cwd user rest
                (st'.1, st'.2.1, log ++ [mkScriptEntry user (pyStrip l)])) =
            Except.ok st := h
        cases hd : dispatchCommand cwd w cur cmd args with
        | error e => rw [hd] at h'; exact absurd h' (by simp)
        | ok st' =>
          rw [hd] at h'
          have hrec := ih st'.1 st'.2.1 (log ++ [mkScriptEntry user (pyStrip l)]) st h'
          rw [hrec]
          simp [scriptLogEntries, List.filter_cons, hc]

/-- Claim C9, amended: whenever a session flushes its log (no processed
command raised an uncaught exception and the loop ended by `exit` or end
of input), the flushed log holds exactly one entry per non-blank command
the session processed — every non-blank script line, then the non-blank
interactive lines up to and including the first `exit` — in issue order;
blank lines are never logged. -/
theorem run_claim9_amended (cwd : List String) (user : String) (w : FSNode)
    (cur : String) (script : Option (List String)) (inputs : List String)
    (L : List LogEntry)
    (h : runSession cwd user w cur script inputs = Except.ok L) :
    L = scriptLogEntries user (script.getD []) ++
        (processedInputs inputs).map (mkInputEntry user) ∧
    L.length = nonBlankCount (script.getD []) + (processedInputs inputs).length := by
  have hmain : L = scriptLogEntries user (script.getD []) ++
      (processedInputs inputs).map (mkInputEntry user) := by
    cases script with
    | none =>
      rw [runSession] at h
      have hr := runLoop_log cwd user inputs w cur [] L h
      simpa [scriptLogEntries] using hr
    | some lines =>
      rw [runSession] at h
      cases hx : execScript cwd user lines (w, cur, []) with
      | error e => rw [hx] at h; exact absurd h (by simp)
      | ok st =>
        rw [hx] at h
        have h1 := execScript_log cwd user lines w cur [] st hx
        have h2 := runLoop_log cwd user inputs st.1 st.2.1 st.2.2 L h
        rw [h2, h1]
        simp
  refine ⟨hmain, ?_⟩
  rw [hmain]
  simp [scriptLogEntries, nonBlankCount]

/-! ## The claims -/

/-- Claim C1 (code bug): the claim states that `_get_real_path` confines
every purely-`..` path to the virtual root, clamping instead of
escaping.  The code does not clamp: already from the root directory the
input `../..` resolves to the real path `..`, which lies above the
virtual root (and above the process working directory), so `cd ../..`
would set the session's directory outside the sandbox.  This theorem
evaluates the code at the failing input. -/
theorem claim1_resolution_escapes_root :
    getRealPath "." "../.." = ".." ∧
    withinVirtualRoot (getRealPath "." "../..") = false ∧
    withinVirtualRoot (getRealPath "." "../../../../etc") = false := by
  refine ⟨rfl, rfl, rfl⟩

/-- Claim C2 (code bug): the claim states that `tail -n 5` with no file
path prints the usage message and returns, leaving the read loop
running.  In the code, after the `-n` option is stripped the argument
list is empty and `args[0]` raises an uncaught `IndexError`; `run`
catches only `KeyboardInterrupt` and `EOFError`, so the session
terminates without a log flush.  This theorem evaluates the code at the
failing input, both at the `tail` handler and at the session level. -/
theorem claim2_tail_missing_path_raises :
    tailCmd wTail "." ["-n", "5"] = Except.error PyError.indexError ∧
    runSession ["home"] "u" wTail "." none ["tail -n 5"] =
      Except.error PyError.indexError := by
  refine ⟨rfl, rfl⟩

/-- Claim C3, counterexample: with the virtual root holding exactly the
empty chain `a/b/c`, the command `rmdir -p a/b/c` removes `c`, `b`, `a`
and then the virtual root directory itself — the walk's boundary test is
only the string prefix `virtual_fs`, which the root's own path
satisfies.  This refutes the claim that the virtual root is never
removed by `rmdir -p`. -/
theorem claim3_counterexample :
    fsExists wChain "virtual_fs" = true ∧
    fsExists (rmdirCmd [] wChain "." ["-p", "a/b/c"]).1 "virtual_fs" = false := by
  refine ⟨rfl, rfl⟩

/-- Claim C3, amended: the `rmdir -p` ancestor walk removes exactly the
empty ancestors whose real-path string starts with `virtual_fs` — a set
that includes the virtual root directory itself once it becomes empty —
and stops at the first non-empty ancestor or when the prefix test fails;
it never removes a directory whose path lacks the prefix. -/
theorem claim3_amended :
    (∀ (cwd : List String) (v : Bool) (fuel : Nat) (w : FSNode) (p q : String),
      q ∈ (rmdirWalk cwd v fuel w p).2.2 → strStartsWith q "virtual_fs" = true) ∧
    "virtual_fs" ∈
      (rmdirWalk [] false 17 (fsRemove wChain "virtual_fs/a/b/c") "virtual_fs/a/b").2.2 := by
  refine ⟨fun cwd v fuel w p q hq => rmdirWalk_removed_prefixed cwd v fuel w p q hq, by decide⟩

/-- Witness for the amended claim C3 at a concrete removed ancestor. -/
theorem claim3_amended_witness : strStartsWith "virtual_fs" "virtual_fs" = true :=
  claim3_amended.1 [] false 17 (fsRemove wChain "virtual_fs/a/b/c") "virtual_fs/a/b"
    "virtual_fs" (by decide)

/-- Claim C4, counterexample: the claim quantifies over every integer
count `n`, but for `n = 0` Python's `lines[-0:]` is the whole list, so
`tail -n 0` on a one-line file prints that line instead of the
`min(k, 0) = 0` lines the claim predicts. -/
theorem claim4_counterexample :
    tailCmd wTail "." ["-n", "0", "f.txt"] = Except.ok ["hello\n"] ∧
    (pyTailSlice ["hello\n"] 0).length ≠
      min (["hello\n"] : List String).length ((0 : Int).toNat) := by
  refine ⟨rfl, by decide⟩

/-- Witness for the amended claim C4: `tail -n 2` on the three-line
fixture file prints the last two lines joined with nothing added. -/
theorem claim4_witness :
    pyInt? "2" = some 2 ∧ (1 : Int) ≤ 2 ∧
    tailCmd wFixture "." ["-n", "2", "file1.txt"] =
      Except.ok [pyJoin ((["Line 1\n", "Line 2\n", "Line 3\n"]).drop
        ((["Line 1\n", "Line 2\n", "Line 3\n"] : List String).length - (2 : Int).toNat))] :=
  ⟨rfl, by decide,
    (tail_claim4 wFixture "." "2" "file1.txt" 2 ["Line 1\n", "Line 2\n", "Line 3\n"]
      rfl (by decide) rfl).1⟩

/-- Claim C5, counterexample: in `ls -R docs` the only consulted
positional slot is `args[0]`, which is `-R`, so the listed directory is
the resolved `.` — not the resolved `docs` the claim predicts. -/
theorem claim5_counterexample :
    lsTargetPath "." ["-R", "docs"] = getRealPath "." "." ∧
    lsTargetPath "." ["-R", "docs"] ≠ getRealPath "." "docs" := by
  refine ⟨rfl, by decide⟩

/-- Witness for the amended claim C5 at the path `docs`. -/
theorem claim5_witness :
    lsTargetPath "." ["-R", "docs"] = lsTargetPath "." [] ∧
    lsTargetPath "." ["docs", "-R"] = getRealPath "." "docs" ∧
    (["-R", "docs"].contains "-R") = true ∧ (["docs", "-R"].contains "-R") = true :=
  ls_claim5_amended "." "docs" (by decide)

/-- Claim C6, counterexample: on a virtual root holding one empty
directory `a`, recursive `ls` prints the blank line before the
subdirectory block rather than after every listing, and the header of
`virtual_fs/a` is `/` (twelve characters — the length of
`./virtual_fs` — are dropped from a path that only starts with the ten
characters `virtual_fs`), not the claim's `/a`. -/
theorem claim6_counterexample :
    lsCmd wOneDir "." ["-R"] = Except.ok ["/:", "a/", "", "/:", ""] ∧
    recListClaim 2 [("a", FSNode.dir [])] "/" = ["/:", "a/", "", "/a:", "", ""] ∧
    (["/:", "a/", "", "/:", ""] : List String) ≠ ["/:", "a/", "", "/a:", "", ""] := by
  refine ⟨rfl, rfl, by decide⟩

/-- Witness for the confirmed claim C7 on the fixture world: removing
the empty directory succeeds and deletes it, removing the non-empty
directory fails with the exact message and leaves the world unchanged. -/
theorem claim7_witness :
    fsExists (rmdirCmd [] wFixture "." ["empty_dir"]).1
      (getRealPath "." "empty_dir") = false ∧
    rmdirCmd [] wFixture "." ["non_empty_dir"] =
      (wFixture, ["rmdir: directory not empty: non_empty_dir"]) :=
  ⟨((rmdir_claim7 [] wFixture "." "empty_dir" [] (by decide) (by decide) rfl).2 rfl).1,
    ((rmdir_claim7 [] wFixture "." "non_empty_dir"
      [("file2.txt", FSNode.file ["Another file"])] (by decide) (by decide) rfl).1
      (by simp)).1⟩

/-- Witness for the confirmed claim C8 at the child name `empty_dir`. -/
theorem claim8_witness :
    (cdCmd ["home", "user"] wFixture "." ["empty_dir"]).1 = "empty_dir" ∧
    (cdCmd ["home", "user"] wFixture
      (cdCmd ["home", "user"] wFixture "." ["empty_dir"]).1 [".."]).1 = "." :=
  cd_claim8 ["home", "user"] wFixture "empty_dir" (by decide) (by decide)
    (by decide) (by decide) rfl rfl

/-- Claim C9, counterexample: the interactive input `exit` followed by
`ls` has two non-blank command lines, but the flushed log holds a single
entry — the loop stops at `exit` and never reads the second line — so
the log does not contain one entry per non-blank line of the input
sequence. -/
theorem claim9_counterexample :
    nonBlankCount ["exit", "ls"] = 2 ∧
    (runSession ["home"] "u" wFixture "." none ["exit", "ls"]).map List.length =
      Except.ok 1 := by
  refine ⟨rfl, rfl⟩

/-- Witness for the amended claim C9 on a session with one-line script
and two interactive commands. -/
theorem claim9_witness :
    ([{ user := "u", action := "script_command", details := some "ls" },
      { user := "u", action := "input", details := some "cd empty_dir" },
      { user := "u", action := "input", details := some "exit" }] : List LogEntry) =
      scriptLogEntries "u" ["ls", ""] ++
        (processedInputs ["cd empty_dir", "exit"]).map (mkInputEntry "u") :=
  (run_claim9_amended ["home"] "u" wFixture "." (some ["ls", ""])
    ["cd empty_dir", "exit"] _ rfl).1

/-- Witness for the confirmed claim C10: `ls file1.txt` on the fixture
world raises `NotADirectoryError`. -/
theorem claim10_witness :
    lsCmd wFixture "." ["file1.txt"] = Except.error PyError.notADirectoryError :=
  ls_claim10 wFixture "." "file1.txt" ["Line 1\n", "Line 2\n", "Line 3\n"]
    (by decide) rfl
